import Mathlib

/-!
Verification of the shell-script dependency analyzer (`tw` repository,
package `shelldeps`): the dependency extractor (`shelldeps.go`), the
GNU/busybox compatibility checker (`gnucompat.go`, AST variant), the
provider resolver, and the package-provides resolver (`provides.go`).

Go strings are byte sequences; they are modelled as `List Char` (all
table entries and inputs of interest are ASCII, where bytewise and
characterwise views coincide, and UTF-8 bytewise order agrees with
codepoint order).  The Go standard-library string operations used by the
source (`strings.HasPrefix`, `strings.Contains`, `strings.Index`,
`sort.Strings`' comparison) are defined below by structural recursion.

The shell AST is a shallow embedding of the `mvdan.cc/sh/v3/syntax`
node kinds the analyzer inspects: call expressions (argument words),
function declarations, and compound statements.  `syntax.Walk` visits
every node in preorder; a compound statement (block, if, while, for,
pipeline, command substitution, ...) contributes nothing by itself and
only exposes its children, so compounds are represented by binary
sequencing (`seq`) and the empty statement (`skip`).
-/

namespace ShellDeps

/-- A Go string: a sequence of characters. -/
abbrev Str := List Char

/-- Conversion from a Lean string literal. -/
def str (s : String) : Str := s.toList

/-- `strings.HasPrefix s p`. -/
def strStartsWith : Str → Str → Bool
  | _, [] => true
  | [], _ :: _ => false
  | c :: s, d :: p => c = d && strStartsWith s p

/-- `strings.Contains s sub`. -/
def strContainsSub : Str → Str → Bool
  | s, sub =>
    if strStartsWith s sub then true
    else
      match s with
      | [] => false
      | _ :: t => strContainsSub t sub

/-- `strings.Index s sub` for a single-character `sub`: position of the
first occurrence of the character, if any. -/
def charIndex (c : Char) : Str → Option Nat
  | [] => none
  | d :: t => if d = c then some 0 else (charIndex c t).map (· + 1)

/-- Membership of a string in a list of strings (a Go `map[string]bool`
key test). -/
def elemStr (s : Str) : List Str → Bool
  | [] => false
  | t :: ts => if s = t then true else elemStr s ts

/-- The strict bytewise lexicographic order used by `sort.Strings`. -/
def strLt : Str → Str → Bool
  | [], [] => false
  | [], _ :: _ => true
  | _ :: _, [] => false
  | c :: s, d :: t => if c < d then true else if d < c then false else strLt s t

/-- Word parts appearing inside a double-quoted string.  The Go code only
type-switches on `*syntax.Lit` and `*syntax.ParamExp` inside a
`DblQuoted`; every other part kind is `other`. -/
inductive QuotedPart where
  | lit (s : Str)
  | paramExp (param : Str)
  | other
deriving DecidableEq, Repr

/-- Parts of a `syntax.Word`.  The Go code type-switches on `*syntax.Lit`,
`*syntax.SglQuoted`, `*syntax.DblQuoted` and `*syntax.ParamExp`; every
other part kind is `other`. -/
inductive WordPart where
  | lit (s : Str)
  | sglQuoted (s : Str)
  | dblQuoted (parts : List QuotedPart)
  | paramExp (param : Str)
  | other
deriving DecidableEq, Repr

/-- A `syntax.Word`: an ordered list of parts. -/
structure Word where
  parts : List WordPart
deriving DecidableEq, Repr

/-- The shell AST skeleton walked by the analyzer.  `call line args`
is a `syntax.CallExpr` (with its 1-based source line, used only by the
compatibility checker); `funcDecl` is a `syntax.FuncDecl`; `seq`/`skip`
represent all compound statements, which `syntax.Walk` traverses
transparently. -/
inductive ShellNode where
  | call (line : Nat) (args : List Word)
  | funcDecl (fname : Str) (body : ShellNode)
  | seq (a b : ShellNode)
  | skip
deriving DecidableEq, Repr

/-- `wordToString` on a part inside double quotes: only literal content is
kept (the Go loop only appends `*syntax.Lit` values). -/
def quotedPartToString : QuotedPart → Str
  | .lit s => s
  | .paramExp _ => []
  | .other => []

/-- `wordToString` on a single word part: literals and single-quoted text
verbatim, double-quoted content via `quotedPartToString`; parameter
expansions and all other parts contribute the empty string. -/
def wordPartToString : WordPart → Str
  | .lit s => s
  | .sglQuoted s => s
  | .dblQuoted ps => (ps.map quotedPartToString).flatten
  | .paramExp _ => []
  | .other => []

/-- `wordToString` from `shelldeps.go`: flatten a word to a string by
concatenating the rendering of each part. -/
def wordToString (w : Word) : Str :=
  (w.parts.map wordPartToString).flatten

/-- `shellBuiltins` from `shelldeps.go`: POSIX and common bash/dash
built-in commands and control keywords (the Go map's key set). -/
def shellBuiltins : List Str :=
  [str "break", str ":", str "continue", str ".", str "eval",
   str "exec", str "exit", str "export", str "readonly", str "return",
   str "set", str "shift", str "times", str "trap", str "unset",
   str "alias", str "bg", str "cd", str "command", str "false",
   str "fc", str "fg", str "getopts", str "jobs", str "kill",
   str "newgrp", str "pwd", str "read", str "true", str "umask",
   str "unalias", str "wait", str "hash", str "type", str "ulimit",
   str "[", str "test", str "echo", str "printf",
   str "if", str "then", str "else", str "elif", str "fi",
   str "while", str "do", str "done", str "for", str "in",
   str "case", str "esac", str "until", str "select",
   str "source", str "local", str "declare", str "typeset",
   str "let", str "enable", str "builtin", str "caller",
   str "compgen", str "complete", str "compopt", str "dirs",
   str "disown", str "help", str "history", str "logout",
   str "mapfile", str "popd", str "pushd", str "shopt",
   str "suspend", str "bind", str "readarray", str "function"]

/-- Membership in the builtin table (`shellBuiltins[name]` in Go). -/
def isShellBuiltin (s : Str) : Bool :=
  elemStr s shellBuiltins

/-- `containsAllPositionalParams` from `shelldeps.go`: does a word contain
a parameter expansion of `@` or `*`, directly or inside double quotes? -/
def containsAllPositionalParams (w : Word) : Bool :=
  w.parts.any fun p =>
    match p with
    | .paramExp v => v = str "@" || v = str "*"
    | .dblQuoted ps =>
        ps.any fun q =>
          match q with
          | .paramExp v => v = str "@" || v = str "*"
          | _ => false
    | _ => false

/-- `executesArguments` from `shelldeps.go`: the body contains a
`CallExpr` whose first argument word contains `$@`/`$*` (the Go walk
short-circuits on the first hit; the result is the same existence test). -/
def executesArguments : ShellNode → Bool
  | .call _ args =>
      match args with
      | w :: _ => containsAllPositionalParams w
      | [] => false
  | .funcDecl _ body => executesArguments body
  | .seq a b => executesArguments a || executesArguments b
  | .skip => false

/-- Names of all `FuncDecl` nodes in the tree (first pass of
`extractDeps`; `syntax.Walk` visits nested declarations too). -/
def funcNames : ShellNode → List Str
  | .call _ _ => []
  | .funcDecl n body => n :: funcNames body
  | .seq a b => funcNames a ++ funcNames b
  | .skip => []

/-- Names of the `FuncDecl` nodes whose body `executesArguments` (the
`wrapperFuncs` map of the first pass). -/
def wrapperNames : ShellNode → List Str
  | .call _ _ => []
  | .funcDecl n body =>
      (if executesArguments body then [n] else []) ++ wrapperNames body
  | .seq a b => wrapperNames a ++ wrapperNames b
  | .skip => []

/-- Alias name extraction from an `alias NAME=VALUE` argument: the Go code
takes `aliasStr[:idx]` where `idx = strings.Index(aliasStr, "=")` and
requires `idx > 0`. -/
def aliasNameOfArg (w : Word) : Option Str :=
  match charIndex '=' (wordToString w) with
  | some idx => if 0 < idx then some ((wordToString w).take idx) else none
  | none => none

/-- Alias names contributed by one `CallExpr` (first pass of
`extractDeps`): the first argument's first part must be the literal
`alias` and a second argument must exist. -/
def callAliasNames (args : List Word) : List Str :=
  match args with
  | w0 :: w1 :: _ =>
      match w0.parts with
      | .lit v :: _ => if v = str "alias" then (aliasNameOfArg w1).toList else []
      | _ => []
  | _ => []

/-- All alias names recorded by the first pass of `extractDeps`. -/
def aliasNames : ShellNode → List Str
  | .call _ args => callAliasNames args
  | .funcDecl _ body => aliasNames body
  | .seq a b => aliasNames a ++ aliasNames b
  | .skip => []

/-- The acceptance filter of `extractDeps`' second pass: not a builtin,
function or alias name, nonempty, and either an absolute path or free of
`$` and `*`. -/
def acceptName (funcs aliases : List Str) (name : Str) : Bool :=
  !isShellBuiltin name && !elemStr name funcs && !elemStr name aliases &&
  !name.isEmpty &&
  (strStartsWith name (str "/") ||
    (!strContainsSub name (str "$") && !strContainsSub name (str "*")))

/-- Dependencies contributed by one `CallExpr` in the second pass of
`extractDeps`: the wrapper-call branch (flattened second argument, when
the command name is a wrapper function) followed by the direct branch
(flattened first argument). -/
def callDeps (wrappers funcs aliases : List Str) (args : List Word) : List Str :=
  match args with
  | [] => []
  | [w0] =>
      if acceptName funcs aliases (wordToString w0) then [wordToString w0] else []
  | w0 :: w1 :: _ =>
      (if elemStr (wordToString w0) wrappers then
         if acceptName funcs aliases (wordToString w1) then [wordToString w1]
         else []
       else []) ++
      (if acceptName funcs aliases (wordToString w0) then [wordToString w0] else [])

/-- Second pass of `extractDeps`: collect every accepted name over the
whole tree (the Go code inserts them into the `deps` map). -/
def collectDeps (wrappers funcs aliases : List Str) : ShellNode → List Str
  | .call _ args => callDeps wrappers funcs aliases args
  | .funcDecl _ body => collectDeps wrappers funcs aliases body
  | .seq a b =>
      collectDeps wrappers funcs aliases a ++ collectDeps wrappers funcs aliases b
  | .skip => []

/-- Insert a string into a strictly-sorted list, keeping it strictly
sorted (duplicates collapse). -/
def insertSorted (s : Str) : List Str → List Str
  | [] => [s]
  | t :: ts =>
      if strLt s t then s :: t :: ts
      else if s = t then t :: ts
      else t :: insertSorted s ts

/-- Rendering of the Go `deps` map as a slice: the distinct collected
names in bytewise lexicographic order (`sort.Strings` over the map's key
set). -/
def sortedDedup (l : List Str) : List Str :=
  l.foldr insertSorted []

/-- `extractDeps` from `shelldeps.go` (the part after parsing): two
passes over the AST, then the sorted deduplicated dependency list. -/
def extractDeps (ast : ShellNode) : List Str :=
  sortedDedup (collectDeps (wrapperNames ast) (funcNames ast) (aliasNames ast) ast)

/-- A word made of a single literal part. -/
def litWord (s : String) : Word := ⟨[.lit (str s)]⟩

/-- The word `"$@"`: a double-quoted parameter expansion of `@`. -/
def quotedAtWord : Word := ⟨[.dblQuoted [.paramExp (str "@")]]⟩

/-- AST of `vr(){ "$@"; }; vr ls /etc`. -/
def scriptVr : ShellNode :=
  .seq (.funcDecl (str "vr") (.call 1 [quotedAtWord]))
       (.call 1 [litWord "vr", litWord "ls", litWord "/etc"])

/-- AST of `print_args(){ echo "$@"; }; print_args ls /etc; grep pattern file`. -/
def scriptPrintArgs : ShellNode :=
  .seq (.funcDecl (str "print_args") (.call 1 [litWord "echo", quotedAtWord]))
       (.seq (.call 1 [litWord "print_args", litWord "ls", litWord "/etc"])
             (.call 2 [litWord "grep", litWord "pattern", litWord "file"]))

/-- AST of `/sbin/sudo ls -l`. -/
def scriptSudo : ShellNode :=
  .call 1 [litWord "/sbin/sudo", litWord "ls", litWord "-l"]

/-- Association-list lookup, modelling a Go map read (`m[k]` with the
`ok` flag). -/
def lookupAssoc {α : Type} (k : Str) : List (Str × α) → Option α
  | [] => none
  | (k', v) :: t => if k = k' then some v else lookupAssoc k t

/-- Split a string at every occurrence of a character (the component view
used by `filepath.Base` and `filepath.Dir`). -/
def splitChar (c : Char) : Str → List Str
  | [] => [[]]
  | d :: t =>
      if d = c then [] :: splitChar c t
      else
        match splitChar c t with
        | h :: r => (d :: h) :: r
        | [] => [[d]]

/-- `filepath.Base`: the last path element, after dropping trailing
slashes; `.` for the empty path, `/` for an all-slash path. -/
def filepathBase (p : Str) : Str :=
  if p.isEmpty then str "."
  else
    match ((splitChar '/' p).filter (fun comp => !comp.isEmpty)).getLast? with
    | some comp => comp
    | none => str "/"

/-- `matchesFlag` from `gnucompat.go`: exact match, long flag with
`=value`, or a two-character short flag `-X` (with `X` not `-`) matched
anywhere inside a combined short-flag argument. -/
def matchesFlag (arg flag : Str) : Bool :=
  if arg = flag then true
  else if strStartsWith flag (str "--") && strStartsWith arg (flag ++ str "=") then true
  else if flag.length = 2 ∧ flag.getD 0 ' ' = '-' ∧ flag.getD 1 ' ' ≠ '-' then
    if strStartsWith arg (str "-") && !strStartsWith arg (str "--") then
      strContainsSub arg [flag.getD 1 ' ']
    else false
  else false

/-- `gnuOnlyFlags` from `gnucompat.go`: commands mapped to their
GNU-only flags with descriptions, in source order.  In Go this is a
`map[string]map[string]string`; the outer map is only ever looked up,
while the inner maps are iterated (in Go's randomized map order), so the
checker below is parameterized by the enumeration used for the inner
maps and this list gives the source-text order. -/
def gnuOnlyFlags : List (Str × List (Str × Str)) :=
  [(str "realpath",
    [(str "--no-symlinks", str "realpath --no-symlinks (GNU only)"),
     (str "--relative-base", str "realpath --relative-base (GNU only)"),
     (str "--relative-to", str "realpath --relative-to (GNU only)"),
     (str "-q", str "realpath -q/--quiet (GNU only)"),
     (str "--quiet", str "realpath --quiet (GNU only)")]),
   (str "stat",
    [(str "--format", str "stat --format (GNU only, use -c for busybox)"),
     (str "--printf", str "stat --printf (GNU only)")]),
   (str "cp",
    [(str "--reflink", str "cp --reflink (GNU only)"),
     (str "--sparse", str "cp --sparse (GNU only)")]),
   (str "date",
    [(str "--iso-8601", str "date --iso-8601 (GNU only)"),
     (str "-I", str "date -I (GNU only, short for --iso-8601)")]),
   (str "mktemp",
    [(str "--suffix", str "mktemp --suffix (GNU only)")]),
   (str "sort",
    [(str "-h", str "sort -h (GNU only, human-numeric-sort)"),
     (str "--human-numeric-sort", str "sort --human-numeric-sort (GNU only)")]),
   (str "ls",
    [(str "--time-style", str "ls --time-style (GNU only)")]),
   (str "df",
    [(str "--output", str "df --output (GNU only)")]),
   (str "readlink",
    [(str "-e", str "readlink -e (GNU only, use -f for busybox)"),
     (str "--canonicalize-existing", str "readlink --canonicalize-existing (GNU only)"),
     (str "-m", str "readlink -m (GNU only)"),
     (str "--canonicalize-missing", str "readlink --canonicalize-missing (GNU only)")]),
   (str "tail",
    [(str "--pid", str "tail --pid (GNU only)")]),
   (str "touch",
    [(str "--date", str "touch --date (GNU only)")]),
   (str "head",
    [(str "--bytes", str "head --bytes (GNU only, use -c)")]),
   (str "du",
    [(str "--apparent-size", str "du --apparent-size (GNU only)")]),
   (str "chmod",
    [(str "--reference", str "chmod --reference (GNU only)")]),
   (str "chown",
    [(str "--reference", str "chown --reference (GNU only)")]),
   (str "install",
    [(str "-D", str "install -D (GNU only, creates parent directories)")]),
   (str "tr",
    [(str "--complement", str "tr --complement (GNU only, use -c)")]),
   (str "wc",
    [(str "--total", str "wc --total (GNU only)")]),
   (str "seq",
    [(str "--equal-width", str "seq --equal-width (GNU only, use -w)")])]

/-- `GNUIncompatibility` from `gnucompat.go` (AST variant). -/
structure Incompat where
  command : Str
  flag : Str
  line : Nat
  description : Str
  fix : Str
deriving DecidableEq, Repr

/-- The remediation string built by `fmt.Sprintf` in
`CheckGNUCompatibilityAST`. -/
def incompatFix (flag : Str) : Str :=
  str "Add \x27coreutils\x27 to runtime dependencies, or modify script to avoid " ++ flag

/-- Findings produced for one argument word: one per matching flag of the
command's rule entry, in the order the entry is enumerated. -/
def argFindings (cmdName : Str) (line : Nat) (flags : List (Str × Str)) (argStr : Str) :
    List Incompat :=
  flags.filterMap fun fd =>
    if matchesFlag argStr fd.1 then
      some ⟨cmdName, fd.1, line, fd.2, incompatFix fd.1⟩
    else none

/-- The command name used for rule lookup: the flattened first word,
reduced to its base name when it is an absolute path. -/
def callCmdName (w0 : Word) : Str :=
  if strStartsWith (wordToString w0) (str "/") then filepathBase (wordToString w0)
  else wordToString w0

/-- Findings produced for one `CallExpr`: resolve the command name
(base name for absolute paths), look it up in the rule table, and test
every subsequent argument against every flag of the entry. -/
def callIncompats (enum : Str → Option (List (Str × Str))) (line : Nat) (args : List Word) :
    List Incompat :=
  match args with
  | [] => []
  | w0 :: rest =>
      match enum (callCmdName w0) with
      | none => []
      | some flags =>
          rest.flatMap fun w => argFindings (callCmdName w0) line flags (wordToString w)

/-- The walk of `CheckGNUCompatibilityAST`, parameterized by the
enumeration order of each command's inner flag map (Go iterates those
maps in randomized order; any permutation of an entry's source-order
list is a possible run). -/
def checkASTWith (enum : Str → Option (List (Str × Str))) : ShellNode → List Incompat
  | .call line args => callIncompats enum line args
  | .funcDecl _ body => checkASTWith enum body
  | .seq a b => checkASTWith enum a ++ checkASTWith enum b
  | .skip => []

/-- The source-order enumeration of the rule table. -/
def gnuFlagsEnum (cmd : Str) : Option (List (Str × Str)) :=
  lookupAssoc cmd gnuOnlyFlags

/-- `CheckGNUCompatibilityAST` from `gnucompat.go`, read with the inner
flag maps enumerated in source order.  The `label` argument (the Go
`filename` parameter) is unused, exactly as in the source. -/
def CheckGNUCompatibilityAST (ast : ShellNode) (label : Str) : List Incompat :=
  checkASTWith gnuFlagsEnum ast

/-- A directory entry as seen by `os.Lstat`: a symlink with its literal
target, a regular file, or anything else (directory, device, ...). -/
inductive FSEntry where
  | symlink (target : Str)
  | regular
  | otherEntry
deriving DecidableEq, Repr

/-- A model of the filesystem consulted by the provider resolver: a
finite map from paths to entries.  `os.Lstat` succeeding is modelled by
the path being present. -/
structure FS where
  entries : List (Str × FSEntry)
deriving DecidableEq, Repr

/-- `os.Lstat` on the model. -/
def FS.lookup (fs : FS) (p : Str) : Option FSEntry :=
  lookupAssoc p fs.entries

/-- `filepath.IsAbs`. -/
def filepathIsAbs (p : Str) : Bool :=
  strStartsWith p (str "/")

/-- `filepath.Join dir name` (path cleaning is not modelled; the
filesystems used in the witnesses contain only clean paths). -/
def filepathJoin (dir name : Str) : Str :=
  dir ++ str "/" ++ name

/-- Concatenate strings with a separator. -/
def strIntercalate (sep : Str) : List Str → Str
  | [] => []
  | [x] => x
  | x :: r => x ++ sep ++ strIntercalate sep r

/-- `filepath.Dir`: everything before the last path element. -/
def filepathDir (p : Str) : Str :=
  match splitChar '/' p with
  | [] => str "."
  | [_] => str "."
  | comps =>
      let d := strIntercalate (str "/") comps.dropLast
      if d.isEmpty then
        if filepathIsAbs p then str "/" else str "."
      else d

/-- `filepath.EvalSymlinks` on the model, with fuel: follow the chain of
symlinks (relative targets resolved against the containing directory)
until a non-symlink entry is reached.  A missing path or an exhausted
fuel (symlink cycle) is an error, modelled as `none`. -/
def evalSymlinksFuel (fs : FS) : Nat → Str → Option Str
  | 0, _ => none
  | fuel + 1, p =>
      match fs.lookup p with
      | some (.symlink t) =>
          evalSymlinksFuel fs fuel
            (if filepathIsAbs t then t else filepathJoin (filepathDir p) t)
      | some _ => some p
      | none => none

/-- `filepath.EvalSymlinks` on the model: enough fuel to traverse any
cycle-free chain in the finite map. -/
def evalSymlinks (fs : FS) (p : Str) : Option Str :=
  evalSymlinksFuel fs (fs.entries.length + 1) p

/-- `ProviderInfo` from `gnucompat.go`. -/
structure ProviderInfo where
  command : Str
  path : Str
  provider : Str
deriving DecidableEq, Repr

/-- The body of `DetectCommandProvider`'s per-directory classification,
after `os.Lstat` found `e` at `cmdPath` inside `dir` (`os.Readlink` on a
model symlink always succeeds, so the source's continue-on-readlink-error
branch is unreachable here): symlinks are
classified by their (directory-resolved) target — `busybox` when the
target's base name is `busybox` or the target contains `"busybox"`
anywhere, else `coreutils` when the target contains `"coreutils"`, else
by full symlink resolution rechecking the final base name for `busybox`;
regular files are `coreutils`; anything else is `unknown`. -/
def classifyEntry (fs : FS) (cmd dir cmdPath : Str) (e : FSEntry) : ProviderInfo :=
  match e with
  | .symlink t0 =>
      let target := if filepathIsAbs t0 then t0 else filepathJoin dir t0
      if filepathBase target = str "busybox" || strContainsSub target (str "busybox") then
        ⟨cmd, cmdPath, str "busybox"⟩
      else if strContainsSub target (str "coreutils") then
        ⟨cmd, cmdPath, str "coreutils"⟩
      else
        match evalSymlinks fs cmdPath with
        | some realPath =>
            if filepathBase realPath = str "busybox" then ⟨cmd, cmdPath, str "busybox"⟩
            else ⟨cmd, cmdPath, str "unknown"⟩
        | none => ⟨cmd, cmdPath, str "unknown"⟩
  | .regular => ⟨cmd, cmdPath, str "coreutils"⟩
  | .otherEntry => ⟨cmd, cmdPath, str "unknown"⟩

/-- `DetectCommandProvider` from `gnucompat.go`: walk the search-path
directories in order and classify the first entry found (the
`searchPath` string has already been split by `filepath.SplitList`). -/
def DetectCommandProvider (fs : FS) (cmd : Str) : List Str → ProviderInfo
  | [] => ⟨cmd, [], str "unknown"⟩
  | dir :: dirs =>
      let cmdPath := filepathJoin dir cmd
      match fs.lookup cmdPath with
      | none => DetectCommandProvider fs cmd dirs
      | some e => classifyEntry fs cmd dir cmdPath e

/-- The filtering loop of `CheckGNUCompatWithPath`, with its per-call
provider cache made explicit.  Returns the retained incompatibilities,
the final cache, and the list of commands actually passed to
`DetectCommandProvider` (in call order). -/
def filterIncompatAux (fs : FS) (dirs : List Str) :
    List Incompat → List (Str × ProviderInfo) →
    List Incompat × List (Str × ProviderInfo) × List Str
  | [], cache => ([], cache, [])
  | inc :: rest, cache =>
      match lookupAssoc inc.command cache with
      | some p =>
          ((if p.provider ≠ str "coreutils" then
              inc :: (filterIncompatAux fs dirs rest cache).1
            else (filterIncompatAux fs dirs rest cache).1),
           (filterIncompatAux fs dirs rest cache).2.1,
           (filterIncompatAux fs dirs rest cache).2.2)
      | none =>
          ((if (DetectCommandProvider fs inc.command dirs).provider ≠ str "coreutils" then
              inc :: (filterIncompatAux fs dirs rest
                (cache ++ [(inc.command, DetectCommandProvider fs inc.command dirs)])).1
            else
              (filterIncompatAux fs dirs rest
                (cache ++ [(inc.command, DetectCommandProvider fs inc.command dirs)])).1),
           (filterIncompatAux fs dirs rest
              (cache ++ [(inc.command, DetectCommandProvider fs inc.command dirs)])).2.1,
           inc.command :: (filterIncompatAux fs dirs rest
              (cache ++ [(inc.command, DetectCommandProvider fs inc.command dirs)])).2.2)

/-- The filtering stage of `CheckGNUCompatWithPath` (the spec's
`FilterByProvider`): an empty search path returns the input unchanged;
otherwise each incompatibility is kept iff its command's provider is not
`coreutils`, with providers resolved through the per-call cache. -/
def FilterByProvider (fs : FS) (allIncompat : List Incompat) (dirs : List Str) :
    List Incompat :=
  if dirs = [] then allIncompat
  else (filterIncompatAux fs dirs allIncompat []).1

/-- `CheckGNUCompatWithPath` from `gnucompat.go`: run the AST checker,
then filter by provider. -/
def CheckGNUCompatWithPath (fs : FS) (ast : ShellNode) (label : Str) (dirs : List Str) :
    List Incompat :=
  FilterByProvider fs (CheckGNUCompatibilityAST ast label) dirs

/-- `PackageProvides` from `provides.go`: package names mapped to the
commands they provide (the Go map, rendered as an association list; the
map is only ever looked up, never iterated). -/
def PackageProvides : List (Str × List Str) :=
  [(str "busybox",
    [str "sh", str "ash",
     str "cat", str "cp", str "mv", str "rm", str "ln", str "ls", str "mkdir",
     str "rmdir", str "touch",
     str "chmod", str "chown", str "chgrp", str "stat", str "readlink",
     str "realpath",
     str "find", str "xargs", str "file",
     str "grep", str "egrep", str "fgrep", str "sed", str "awk", str "cut",
     str "sort", str "uniq",
     str "head", str "tail", str "wc", str "tr", str "tee", str "comm",
     str "diff", str "patch",
     str "tar", str "gzip", str "gunzip", str "zcat", str "bzip2",
     str "bunzip2", str "bzcat",
     str "xz", str "unxz", str "xzcat",
     str "wget", str "nc", str "netstat", str "hostname", str "ip",
     str "ifconfig", str "route",
     str "ping", str "traceroute", str "nslookup",
     str "ps", str "kill", str "killall", str "pgrep", str "pkill",
     str "nice", str "nohup",
     str "timeout", str "watch",
     str "uname", str "uptime", str "free", str "df", str "du", str "mount",
     str "umount",
     str "id", str "whoami", str "groups", str "date", str "cal",
     str "env", str "printenv", str "which", str "dirname", str "basename",
     str "expr",
     str "seq", str "sleep", str "true", str "false", str "yes", str "nproc",
     str "vi", str "less", str "more",
     str "md5sum", str "sha256sum", str "sha512sum", str "base64", str "od",
     str "hexdump",
     str "strings", str "mktemp", str "sync", str "logger"]),
   (str "coreutils",
    [str "cat", str "cp", str "mv", str "rm", str "ln", str "ls", str "mkdir",
     str "rmdir", str "touch",
     str "chmod", str "chown", str "chgrp", str "stat", str "readlink",
     str "realpath",
     str "cut", str "sort", str "uniq", str "head", str "tail", str "wc",
     str "tr", str "tee",
     str "comm", str "diff", str "df", str "du", str "date", str "env",
     str "printenv",
     str "dirname", str "basename", str "expr", str "seq", str "sleep",
     str "true", str "false",
     str "yes", str "nproc", str "md5sum", str "sha256sum", str "sha512sum",
     str "base64",
     str "od", str "mktemp", str "sync", str "id", str "whoami", str "groups",
     str "uname",
     str "nice", str "nohup", str "timeout", str "install", str "shred",
     str "truncate",
     str "numfmt", str "factor", str "expand", str "unexpand", str "fold",
     str "fmt",
     str "join", str "paste", str "split", str "csplit", str "nl", str "pr",
     str "ptx",
     str "stty", str "tty"]),
   (str "bash", [str "bash"]),
   (str "dash", [str "dash"]),
   (str "grep", [str "grep", str "egrep", str "fgrep"]),
   (str "gawk", [str "awk", str "gawk"]),
   (str "mawk", [str "awk", str "mawk"]),
   (str "sed", [str "sed"]),
   (str "diffutils", [str "diff", str "diff3", str "sdiff", str "cmp"]),
   (str "curl", [str "curl"]),
   (str "wget", [str "wget"]),
   (str "bind-tools", [str "dig", str "nslookup", str "host", str "nsupdate"]),
   (str "iputils",
    [str "ping", str "ping6", str "tracepath", str "clockdiff", str "arping"]),
   (str "iproute2",
    [str "ip", str "ss", str "tc", str "bridge", str "devlink", str "rtmon"]),
   (str "net-tools",
    [str "netstat", str "ifconfig", str "route", str "arp", str "hostname"]),
   (str "netcat-openbsd", [str "nc", str "netcat"]),
   (str "socat", [str "socat"]),
   (str "openssh",
    [str "ssh", str "scp", str "sftp", str "ssh-keygen", str "ssh-keyscan"]),
   (str "openssh-client",
    [str "ssh", str "scp", str "sftp", str "ssh-keygen", str "ssh-keyscan"]),
   (str "rsync", [str "rsync"]),
   (str "gzip", [str "gzip", str "gunzip", str "zcat"]),
   (str "bzip2", [str "bzip2", str "bunzip2", str "bzcat"]),
   (str "xz", [str "xz", str "unxz", str "xzcat", str "lzma", str "unlzma"]),
   (str "zstd", [str "zstd", str "unzstd", str "zstdcat", str "zstdmt"]),
   (str "zip", [str "zip"]),
   (str "unzip", [str "unzip"]),
   (str "tar", [str "tar"]),
   (str "cpio", [str "cpio"]),
   (str "procps",
    [str "ps", str "top", str "free", str "vmstat", str "pgrep", str "pkill",
     str "pidof", str "watch", str "sysctl", str "uptime", str "w"]),
   (str "psmisc", [str "killall", str "fuser", str "pstree", str "peekfd"]),
   (str "util-linux",
    [str "mount", str "umount", str "fdisk", str "mkfs", str "fsck",
     str "lsblk", str "blkid", str "findmnt", str "losetup", str "swapon",
     str "swapoff"]),
   (str "shadow",
    [str "useradd", str "userdel", str "usermod", str "groupadd",
     str "groupdel", str "groupmod", str "passwd", str "chpasswd"]),
   (str "python3", [str "python3", str "python"]),
   (str "python-3.11", [str "python3.11"]),
   (str "python-3.12", [str "python3.12"]),
   (str "python-3.13", [str "python3.13"]),
   (str "perl", [str "perl"]),
   (str "ruby", [str "ruby", str "irb", str "gem"]),
   (str "nodejs", [str "node", str "npm", str "npx"]),
   (str "git", [str "git"]),
   (str "make", [str "make"]),
   (str "cmake", [str "cmake", str "ctest", str "cpack"]),
   (str "gcc", [str "gcc", str "g++", str "cpp"]),
   (str "clang", [str "clang", str "clang++"]),
   (str "go", [str "go", str "gofmt"]),
   (str "jq", [str "jq"]),
   (str "yq", [str "yq"]),
   (str "postgresql-client",
    [str "psql", str "pg_dump", str "pg_restore", str "pg_isready"]),
   (str "postgresql-16-client",
    [str "psql", str "pg_dump", str "pg_restore", str "pg_isready"]),
   (str "mysql-client", [str "mysql", str "mysqldump", str "mysqladmin"]),
   (str "mariadb-client",
    [str "mysql", str "mariadb", str "mysqldump", str "mariadb-dump"]),
   (str "redis", [str "redis-cli", str "redis-server", str "redis-benchmark"]),
   (str "valkey",
    [str "valkey-cli", str "valkey-server", str "valkey-benchmark"]),
   (str "valkey-cli", [str "valkey-cli"]),
   (str "kubectl", [str "kubectl"]),
   (str "helm", [str "helm"]),
   (str "docker-cli", [str "docker"]),
   (str "podman", [str "podman"]),
   (str "skopeo", [str "skopeo"]),
   (str "crane", [str "crane", str "gcrane"]),
   (str "aws-cli", [str "aws"]),
   (str "aws-cli-v2", [str "aws"]),
   (str "gcloud", [str "gcloud", str "gsutil", str "bq"]),
   (str "azure-cli", [str "az"]),
   (str "file", [str "file"]),
   (str "findutils", [str "find", str "xargs", str "locate", str "updatedb"]),
   (str "which", [str "which"]),
   (str "tree", [str "tree"]),
   (str "less", [str "less"]),
   (str "vim", [str "vim", str "vi"]),
   (str "nano", [str "nano"]),
   (str "openssl", [str "openssl"]),
   (str "ca-certificates", []),
   (str "posix-libc-utils",
    [str "getent", str "iconv", str "locale", str "localedef"])]

/-- `ResolveCommands` from `provides.go`: the commands made available by
a list of packages (the Go code unions the table entries into a set;
membership in this list is that set's membership, unknown packages
contributing nothing). -/
def ResolveCommands (packages : List Str) : List Str :=
  packages.flatMap fun pkg => (lookupAssoc pkg PackageProvides).getD []

/-- `FindMissingCommands` from `provides.go`: the required commands not
available from the given packages, in input order. -/
def FindMissingCommands (required packages : List Str) : List Str :=
  required.filter fun cmd => !elemStr cmd (ResolveCommands packages)

/-! Specification-side definitions.  The definitions below formalize the
claims' wording, to be compared with the source-derived definitions
above. -/

/-- The words in command position: the first argument word of every
`CallExpr` in the tree. -/
def commandWords : ShellNode → List Word
  | .call _ args =>
      match args with
      | w :: _ => [w]
      | [] => []
  | .funcDecl _ body => commandWords body
  | .seq a b => commandWords a ++ commandWords b
  | .skip => []

/-- All function declarations (name, body) in the tree. -/
def funcDecls : ShellNode → List (Str × ShellNode)
  | .call _ _ => []
  | .funcDecl n body => (n, body) :: funcDecls body
  | .seq a b => funcDecls a ++ funcDecls b
  | .skip => []

/-- Claim wording: a word containing a parameter expansion of `@` or `*`,
quoted or unquoted. -/
def wordHasAllPositional (w : Word) : Prop :=
  ∃ p ∈ w.parts,
    (∃ v, p = .paramExp v ∧ (v = str "@" ∨ v = str "*")) ∨
    (∃ ps, p = .dblQuoted ps ∧
      ∃ q ∈ ps, ∃ v, q = .paramExp v ∧ (v = str "@" ∨ v = str "*"))

/-- Claim wording for flag matching: exact match, or a long flag with an
`=value` suffix, or a two-character short flag `-X` occurring anywhere
after the leading `-` of a combined short-flag argument. -/
def matchesFlagSpec (arg flag : Str) : Prop :=
  arg = flag ∨
  ((∃ t, flag = str "--" ++ t) ∧ (∃ t, arg = flag ++ str "=" ++ t)) ∨
  (∃ c, flag = ['-', c] ∧ c ≠ '-' ∧
    (∃ t, arg = str "-" ++ t) ∧ ¬ (∃ t, arg = str "--" ++ t) ∧ c ∈ arg.drop 1)

/-- The per-entry classification written in claim C4's wording: identical
to the source's classification except for the busybox test on symlink
targets, which the claim states as "the target's base name equals or
contains busybox". -/
def classifyEntryClaimed (fs : FS) (cmd dir cmdPath : Str) (e : FSEntry) : ProviderInfo :=
  match e with
  | .symlink t0 =>
      let target := if filepathIsAbs t0 then t0 else filepathJoin dir t0
      if strContainsSub (filepathBase target) (str "busybox") then
        ⟨cmd, cmdPath, str "busybox"⟩
      else if strContainsSub target (str "coreutils") then
        ⟨cmd, cmdPath, str "coreutils"⟩
      else
        match evalSymlinks fs cmdPath with
        | some realPath =>
            if filepathBase realPath = str "busybox" then ⟨cmd, cmdPath, str "busybox"⟩
            else ⟨cmd, cmdPath, str "unknown"⟩
        | none => ⟨cmd, cmdPath, str "unknown"⟩
  | .regular => ⟨cmd, cmdPath, str "coreutils"⟩
  | .otherEntry => ⟨cmd, cmdPath, str "unknown"⟩

/-- Claim C4's description of `ResolveProvider`: inspect the directories
in order, stop at the first one containing an entry named `cmd`, and
classify that entry (per `classifyEntryClaimed`); `unknown` when no
directory contains the command. -/
def ResolveProviderClaimed (fs : FS) (cmd : Str) (dirs : List Str) : ProviderInfo :=
  match dirs.find? (fun d => (fs.lookup (filepathJoin d cmd)).isSome) with
  | none => ⟨cmd, [], str "unknown"⟩
  | some d =>
      match fs.lookup (filepathJoin d cmd) with
      | some e => classifyEntryClaimed fs cmd d (filepathJoin d cmd) e
      | none => ⟨cmd, [], str "unknown"⟩

/-- The amended per-entry classification: as the source, a symlink is
busybox-provided when the target's base name equals `busybox` or the
full target string contains `busybox` anywhere. -/
def classifyEntryAmended (fs : FS) (cmd dir cmdPath : Str) (e : FSEntry) : ProviderInfo :=
  match e with
  | .symlink t0 =>
      let target := if filepathIsAbs t0 then t0 else filepathJoin dir t0
      if filepathBase target = str "busybox" || strContainsSub target (str "busybox") then
        ⟨cmd, cmdPath, str "busybox"⟩
      else if strContainsSub target (str "coreutils") then
        ⟨cmd, cmdPath, str "coreutils"⟩
      else
        match evalSymlinks fs cmdPath with
        | some realPath =>
            if filepathBase realPath = str "busybox" then ⟨cmd, cmdPath, str "busybox"⟩
            else ⟨cmd, cmdPath, str "unknown"⟩
        | none => ⟨cmd, cmdPath, str "unknown"⟩
  | .regular => ⟨cmd, cmdPath, str "coreutils"⟩
  | .otherEntry => ⟨cmd, cmdPath, str "unknown"⟩

/-- The amended description of `ResolveProvider`: first matching
directory, classified per `classifyEntryAmended`. -/
def ResolveProviderAmended (fs : FS) (cmd : Str) (dirs : List Str) : ProviderInfo :=
  match dirs.find? (fun d => (fs.lookup (filepathJoin d cmd)).isSome) with
  | none => ⟨cmd, [], str "unknown"⟩
  | some d =>
      match fs.lookup (filepathJoin d cmd) with
      | some e => classifyEntryAmended fs cmd d (filepathJoin d cmd) e
      | none => ⟨cmd, [], str "unknown"⟩

/-- A filesystem where `/bin/ls` is a symlink to `/busybox/ls`, a regular
file inside a directory named `busybox`: the target contains `busybox`
but its base name `ls` does not. -/
def fsBusyboxDir : FS :=
  ⟨[(str "/bin/ls", .symlink (str "/busybox/ls")),
    (str "/busybox/ls", .regular)]⟩

/-- The `readlink` entry of the rule table in reverse order: one of the
orders in which Go's randomized map iteration can enumerate the entry. -/
def readlinkFlagsRev : List (Str × Str) :=
  ((lookupAssoc (str "readlink") gnuOnlyFlags).getD []).reverse

/-- An alternative admissible enumeration of the rule table: identical to
the source-order one except that `readlink`'s flags are enumerated in
reverse. -/
def gnuFlagsEnumAlt (cmd : Str) : Option (List (Str × Str)) :=
  if cmd = str "readlink" then some readlinkFlagsRev else gnuFlagsEnum cmd

/-- Pointwise permutation of two flag-table enumerations: both absent, or
both present up to reordering (the possible outcomes of Go's randomized
map iteration over the same map). -/
def optionPerm : Option (List (Str × Str)) → Option (List (Str × Str)) → Prop
  | some l1, some l2 => l1.Perm l2
  | none, none => True
  | _, _ => False

/-- AST of `readlink -em x`: the argument `-em` matches both the `-e` and
the `-m` GNU-only flags of `readlink`. -/
def scriptReadlink : ShellNode :=
  .call 1 [litWord "readlink", litWord "-em", litWord "x"]

/-- A script using only builtins and keywords:
`echo hello; cd /tmp; export FOO=bar; test -f file`. -/
def scriptBuiltinsOnly : ShellNode :=
  .seq (.call 1 [litWord "echo", litWord "hello"])
       (.seq (.call 2 [litWord "cd", litWord "/tmp"])
             (.seq (.call 3 [litWord "export", litWord "FOO=bar"])
                   (.call 4 [litWord "test", litWord "-f", litWord "file"])))

/-- A finding list for the filter witness: one `realpath` finding and one
`readlink` finding. -/
def incompatPair : List Incompat :=
  [⟨str "realpath", str "--no-symlinks", 1, str "realpath --no-symlinks (GNU only)",
    incompatFix (str "--no-symlinks")⟩,
   ⟨str "readlink", str "-e", 2, str "readlink -e (GNU only, use -f for busybox)",
    incompatFix (str "-e")⟩]

/-- A filesystem where `realpath` is a regular file in `/bin` (treated as
coreutils) and `readlink` is a symlink to busybox. -/
def fsMixed : FS :=
  ⟨[(str "/bin/realpath", .regular),
    (str "/bin/readlink", .symlink (str "/bin/busybox")),
    (str "/bin/busybox", .regular)]⟩

/-! Helper lemmas. -/

theorem elemStr_iff {s : Str} {l : List Str} : elemStr s l = true ↔ s ∈ l := by
  induction l with
  | nil => simp [elemStr]
  | cons t ts ih =>
      by_cases h : s = t
      · subst h; simp [elemStr]
      · simp [elemStr, h, ih]

theorem lookupAssoc_append {α : Type} (k : Str) (l1 l2 : List (Str × α)) :
    lookupAssoc k (l1 ++ l2) = (lookupAssoc k l1).or (lookupAssoc k l2) := by
  induction l1 with
  | nil => simp [lookupAssoc]
  | cons h t ih =>
      by_cases hk : k = h.1
      · simp [lookupAssoc, hk]
      · simpa [lookupAssoc, hk] using ih

theorem strLt_irrefl (s : Str) : strLt s s = false := by
  induction s with
  | nil => rfl
  | cons c t ih => simp [strLt, ih]

theorem insertSorted_cons_lt {s t : Str} {ts : List Str} (h : strLt s t = true) :
    insertSorted s (t :: ts) = s :: t :: ts := by
  simp [insertSorted, h]

theorem insertSorted_cons_self {t : Str} {ts : List Str} :
    insertSorted t (t :: ts) = t :: ts := by
  simp [insertSorted, strLt_irrefl]

theorem insertSorted_cons_gt {s t : Str} {ts : List Str} (h1 : ¬ strLt s t = true)
    (h2 : s ≠ t) : insertSorted s (t :: ts) = t :: insertSorted s ts := by
  simp [insertSorted, h1, h2]

theorem mem_insertSorted {a s : Str} {l : List Str} :
    a ∈ insertSorted s l ↔ a = s ∨ a ∈ l := by
  induction l with
  | nil => simp [insertSorted]
  | cons t ts ih =>
      by_cases h1 : strLt s t = true
      · rw [insertSorted_cons_lt h1]
        simp only [List.mem_cons]
      · by_cases h2 : s = t
        · subst h2
          rw [insertSorted_cons_self]
          simp only [List.mem_cons]
          tauto
        · rw [insertSorted_cons_gt h1 h2]
          simp only [List.mem_cons, ih]
          tauto

theorem mem_sortedDedup {a : Str} {l : List Str} : a ∈ sortedDedup l ↔ a ∈ l := by
  induction l with
  | nil => simp [sortedDedup]
  | cons t ts ih =>
      simp only [sortedDedup, List.foldr_cons] at *
      rw [mem_insertSorted, ih]
      simp

theorem strLt_trans {a : Str} : ∀ {b c : Str},
    strLt a b = true → strLt b c = true → strLt a c = true := by
  induction a with
  | nil =>
      intro b c h1 h2
      cases c with
      | nil => cases b <;> simp [strLt] at h2
      | cons z ct => simp [strLt]
  | cons x at' ih =>
      intro b c h1 h2
      cases b with
      | nil => simp [strLt] at h1
      | cons y bt =>
          cases c with
          | nil => simp [strLt] at h2
          | cons z ct =>
              simp only [strLt] at h1 h2 ⊢
              rcases lt_trichotomy x y with hxy | rfl | hxy
              · rcases lt_trichotomy y z with hyz | rfl | hyz
                · simp [lt_trans hxy hyz]
                · simp [hxy]
                · rw [if_neg (lt_asymm hyz), if_pos hyz] at h2
                  exact absurd h2 (by simp)
              · rw [if_neg (lt_irrefl x), if_neg (lt_irrefl x)] at h1
                rcases lt_trichotomy x z with hxz | rfl | hxz
                · simp [hxz]
                · rw [if_neg (lt_irrefl x), if_neg (lt_irrefl x)] at h2 ⊢
                  exact ih h1 h2
                · rw [if_neg (lt_asymm hxz), if_pos hxz] at h2
                  exact absurd h2 (by simp)
              · rw [if_neg (lt_asymm hxy), if_pos hxy] at h1
                exact absurd h1 (by simp)

theorem strLt_total {a : Str} : ∀ {b : Str},
    strLt a b = false → a ≠ b → strLt b a = true := by
  induction a with
  | nil =>
      intro b h1 h2
      cases b with
      | nil => exact absurd rfl h2
      | cons y bt => simp [strLt] at h1
  | cons x at' ih =>
      intro b h1 h2
      cases b with
      | nil => simp [strLt]
      | cons y bt =>
          simp only [strLt] at h1 ⊢
          rcases lt_trichotomy x y with hxy | rfl | hxy
          · rw [if_pos hxy] at h1
            exact absurd h1 (by simp)
          · rw [if_neg (lt_irrefl x), if_neg (lt_irrefl x)] at h1 ⊢
            exact ih h1 (by simpa using h2)
          · simp [hxy]

theorem strLt_ne {a b : Str} (h : strLt a b = true) : a ≠ b := by
  intro he
  subst he
  simp [strLt_irrefl] at h

theorem pairwise_insertSorted {s : Str} {l : List Str}
    (h : l.Pairwise (fun a b => strLt a b = true)) :
    (insertSorted s l).Pairwise (fun a b => strLt a b = true) := by
  induction l with
  | nil => simp [insertSorted]
  | cons t ts ih =>
      rcases List.pairwise_cons.mp h with ⟨ht, hts⟩
      by_cases h1 : strLt s t = true
      · rw [insertSorted_cons_lt h1]
        refine List.pairwise_cons.mpr ⟨?_, h⟩
        intro b hb
        rcases List.mem_cons.mp hb with rfl | hb
        · exact h1
        · exact strLt_trans h1 (ht b hb)
      · by_cases h2 : s = t
        · subst h2
          rw [insertSorted_cons_self]
          exact h
        · rw [insertSorted_cons_gt h1 h2]
          refine List.pairwise_cons.mpr ⟨?_, ih hts⟩
          intro b hb
          rcases mem_insertSorted.mp hb with rfl | hb
          · exact strLt_total (by simpa using h1) h2
          · exact ht b hb

theorem pairwise_sortedDedup (l : List Str) :
    (sortedDedup l).Pairwise (fun a b => strLt a b = true) := by
  induction l with
  | nil => simp [sortedDedup]
  | cons t ts ih => exact pairwise_insertSorted ih

theorem strStartsWith_iff {s p : Str} : strStartsWith s p = true ↔ ∃ t, s = p ++ t := by
  induction p generalizing s with
  | nil => simp [strStartsWith]
  | cons d pt ih =>
      cases s with
      | nil => simp [strStartsWith]
      | cons c st =>
          simp only [strStartsWith, Bool.and_eq_true, decide_eq_true_eq, ih]
          constructor
          · rintro ⟨rfl, t, rfl⟩; exact ⟨t, rfl⟩
          · rintro ⟨t, ht⟩
            injection ht with h1 h2
            exact ⟨h1, t, h2⟩

theorem strContainsSub_singleton {s : Str} {c : Char} :
    strContainsSub s [c] = true ↔ c ∈ s := by
  induction s with
  | nil => simp [strContainsSub, strStartsWith]
  | cons d t ih =>
      by_cases h : d = c
      · subst h; simp [strContainsSub, strStartsWith]
      · simp [strContainsSub, strStartsWith, h, ih, Ne.symm h]

theorem elemStr_append {s : Str} {a b : List Str} :
    elemStr s (a ++ b) = (elemStr s a || elemStr s b) := by
  induction a with
  | nil => simp [elemStr]
  | cons t ts ih =>
      by_cases h : s = t
      · simp [elemStr, h]
      · simp [elemStr, h, ih]

theorem startsWith_slash_not_builtin {s : Str} (h : strStartsWith s (str "/") = true) :
    isShellBuiltin s = false := by
  by_contra hb
  rw [Bool.not_eq_false] at hb
  have hmem := elemStr_iff.mp hb
  fin_cases hmem <;> exact absurd h (by decide)

theorem executesArguments_eq_any (t : ShellNode) :
    executesArguments t = (commandWords t).any containsAllPositionalParams := by
  induction t with
  | call line args => cases args <;> simp [executesArguments, commandWords]
  | funcDecl n body ih => simpa [executesArguments, commandWords] using ih
  | seq a b iha ihb => simp [executesArguments, commandWords, List.any_append, iha, ihb]
  | skip => rfl

theorem containsAllPositionalParams_iff {w : Word} :
    containsAllPositionalParams w = true ↔ wordHasAllPositional w := by
  unfold containsAllPositionalParams wordHasAllPositional
  rw [List.any_eq_true]
  constructor
  · rintro ⟨p, hp, hm⟩
    refine ⟨p, hp, ?_⟩
    cases p with
    | paramExp v =>
        left
        exact ⟨v, rfl, by simpa using hm⟩
    | dblQuoted ps =>
        right
        refine ⟨ps, rfl, ?_⟩
        rw [show (match (WordPart.dblQuoted ps) with
          | .paramExp v => (v = str "@" || v = str "*" : Bool)
          | .dblQuoted ps =>
              ps.any fun q =>
                match q with
                | .paramExp v => (v = str "@" || v = str "*" : Bool)
                | _ => false
          | _ => false) = ps.any fun q =>
                match q with
                | .paramExp v => (v = str "@" || v = str "*" : Bool)
                | _ => false from rfl, List.any_eq_true] at hm
        obtain ⟨q, hq, hqm⟩ := hm
        cases q with
        | paramExp v => exact ⟨.paramExp v, hq, v, rfl, by simpa using hqm⟩
        | lit v => simp at hqm
        | other => simp at hqm
    | lit v => simp at hm
    | sglQuoted v => simp at hm
    | other => simp at hm
  · rintro ⟨p, hp, ⟨v, rfl, hv⟩ | ⟨ps, rfl, q, hq, v, rfl, hv⟩⟩
    · exact ⟨_, hp, by simpa using hv⟩
    · refine ⟨_, hp, ?_⟩
      simp only
      rw [List.any_eq_true]
      exact ⟨_, hq, by simpa using hv⟩

theorem mem_wrapperNames_iff {n : Str} {t : ShellNode} :
    n ∈ wrapperNames t ↔ ∃ b, (n, b) ∈ funcDecls t ∧ executesArguments b = true := by
  induction t with
  | call line args => simp [wrapperNames, funcDecls]
  | funcDecl m body ih =>
      constructor
      · intro hmem
        have hmem' :
            n ∈ (if executesArguments body = true then [m] else []) ++ wrapperNames body := by
          simpa [wrapperNames] using hmem
        rcases List.mem_append.mp hmem' with h1 | h2
        · by_cases he : executesArguments body = true
          · rw [if_pos he] at h1
            rcases List.mem_singleton.mp h1 with rfl
            exact ⟨body, by simp [funcDecls], he⟩
          · rw [if_neg he] at h1
            simp at h1
        · obtain ⟨b, hb, hbe⟩ := ih.mp h2
          exact ⟨b, by simp [funcDecls, hb], hbe⟩
      · rintro ⟨b, hb, hbe⟩
        have hb' : (n, b) = (m, body) ∨ (n, b) ∈ funcDecls body := by
          simpa [funcDecls] using hb
        have hgoal :
            n ∈ (if executesArguments body = true then [m] else []) ++ wrapperNames body := by
          rcases hb' with heq | hmem
          · rw [Prod.mk.injEq] at heq
            obtain ⟨rfl, rfl⟩ := heq
            rw [if_pos hbe]
            simp
          · exact List.mem_append.mpr (Or.inr (ih.mpr ⟨b, hmem, hbe⟩))
        simpa [wrapperNames] using hgoal
  | seq a b iha ihb =>
      constructor
      · intro hmem
        rcases List.mem_append.mp (by simpa [wrapperNames] using hmem) with h1 | h2
        · obtain ⟨b', hb, hbe⟩ := iha.mp h1
          exact ⟨b', by simp [funcDecls, hb], hbe⟩
        · obtain ⟨b', hb, hbe⟩ := ihb.mp h2
          exact ⟨b', by simp [funcDecls, hb], hbe⟩
      · rintro ⟨b', hb, hbe⟩
        rcases List.mem_append.mp (by simpa [funcDecls] using hb) with h1 | h2
        · have hm := iha.mpr ⟨b', h1, hbe⟩
          simp [wrapperNames, hm]
        · have hm := ihb.mpr ⟨b', h2, hbe⟩
          simp [wrapperNames, hm]
  | skip => simp [wrapperNames, funcDecls]

theorem funcNames_nil_wrapperNames {t : ShellNode} (h : funcNames t = []) :
    wrapperNames t = [] := by
  induction t with
  | call line args => rfl
  | funcDecl m body ih => simp [funcNames] at h
  | seq a b iha ihb =>
      rcases List.append_eq_nil.mp h with ⟨h1, h2⟩
      simp [wrapperNames, iha h1, ihb h2]
  | skip => rfl

theorem elemStr_eq_false {s : Str} {l : List Str} : elemStr s l = false ↔ s ∉ l := by
  constructor
  · intro h hmem
    rw [elemStr_iff.mpr hmem] at h
    exact absurd h (by simp)
  · intro h
    cases he : elemStr s l
    · rfl
    · exact absurd (elemStr_iff.mp he) h

theorem isEmpty_eq_false_iff {s : Str} : s.isEmpty = false ↔ s ≠ [] := by
  cases s <;> simp

theorem acceptName_true_iff {f al : List Str} {s : Str} :
    acceptName f al s = true ↔
      isShellBuiltin s = false ∧ s ∉ f ∧ s ∉ al ∧ s ≠ [] ∧
      (strStartsWith s (str "/") = true ∨
        (strContainsSub s (str "$") = false ∧ strContainsSub s (str "*") = false)) := by
  unfold acceptName
  simp only [Bool.and_eq_true, Bool.or_eq_true, Bool.not_eq_true', elemStr_eq_false,
    isEmpty_eq_false_iff]
  tauto

theorem collectDeps_accept {s : Str} {wr f al : List Str} {t : ShellNode}
    (h : s ∈ collectDeps wr f al t) : acceptName f al s = true := by
  induction t with
  | call line args =>
      rcases args with _ | ⟨w0, _ | ⟨w1, rest'⟩⟩
      · simp [collectDeps, callDeps] at h
      · simp only [collectDeps, callDeps] at h
        by_cases ha : acceptName f al (wordToString w0) = true
        · rw [if_pos ha] at h
          rcases List.mem_singleton.mp h with rfl
          exact ha
        · rw [if_neg ha] at h
          simp at h
      · simp only [collectDeps, callDeps] at h
        rcases List.mem_append.mp h with h1 | h2
        · by_cases hw : elemStr (wordToString w0) wr = true
          · rw [if_pos hw] at h1
            by_cases ha : acceptName f al (wordToString w1) = true
            · rw [if_pos ha] at h1
              rcases List.mem_singleton.mp h1 with rfl
              exact ha
            · rw [if_neg ha] at h1
              simp at h1
          · rw [if_neg hw] at h1
            simp at h1
        · by_cases ha : acceptName f al (wordToString w0) = true
          · rw [if_pos ha] at h2
            rcases List.mem_singleton.mp h2 with rfl
            exact ha
          · rw [if_neg ha] at h2
            simp at h2
  | funcDecl m body ih => exact ih h
  | seq a b iha ihb =>
      rcases List.mem_append.mp h with h1 | h2
      · exact iha h1
      · exact ihb h2
  | skip => simp [collectDeps] at h

theorem collectDeps_of_commandWord {w : Word} {t : ShellNode} {wr f al : List Str}
    (hw : w ∈ commandWords t) (ha : acceptName f al (wordToString w) = true) :
    wordToString w ∈ collectDeps wr f al t := by
  induction t with
  | call line args =>
      rcases args with _ | ⟨w0, _ | ⟨w1, rest'⟩⟩
      · simp [commandWords] at hw
      · rcases List.mem_singleton.mp (by simpa [commandWords] using hw) with rfl
        simp only [collectDeps, callDeps]
        simp [ha]
      · rcases List.mem_singleton.mp (by simpa [commandWords] using hw) with rfl
        simp only [collectDeps, callDeps]
        rw [List.mem_append]
        right
        simp [ha]
  | funcDecl m body ih => exact ih hw
  | seq a b iha ihb =>
      rcases List.mem_append.mp (by simpa [commandWords] using hw) with h1 | h2
      · exact List.mem_append.mpr (Or.inl (iha h1))
      · exact List.mem_append.mpr (Or.inr (ihb h2))
  | skip => simp [commandWords] at hw

theorem collectDeps_builtinOnly {t : ShellNode} {f al : List Str}
    (h : ∀ w ∈ commandWords t, isShellBuiltin (wordToString w) = true) :
    collectDeps [] f al t = [] := by
  induction t with
  | call line args =>
      rcases args with _ | ⟨w0, _ | ⟨w1, rest'⟩⟩
      · rfl
      · have hb := h w0 (by simp [commandWords])
        have hacc : acceptName f al (wordToString w0) = false := by
          simp [acceptName, hb]
        simp [collectDeps, callDeps, hacc]
      · have hb := h w0 (by simp [commandWords])
        have hacc : acceptName f al (wordToString w0) = false := by
          simp [acceptName, hb]
        simp [collectDeps, callDeps, hacc, elemStr]
  | funcDecl m body ih =>
      exact ih fun w hw => h w hw
  | seq a b iha ihb =>
      simp only [collectDeps]
      rw [iha fun w hw => h w (by simp [commandWords, hw]),
          ihb fun w hw => h w (by simp [commandWords, hw])]
      rfl
  | skip => rfl

theorem classifyEntry_eq_amended (fs : FS) (cmd dir cmdPath : Str) (e : FSEntry) :
    classifyEntry fs cmd dir cmdPath e = classifyEntryAmended fs cmd dir cmdPath e := by
  cases e <;> rfl

theorem flatMapPermCongr {α β : Type} {l : List α} {f g : α → List β}
    (h : ∀ a ∈ l, (f a).Perm (g a)) : (l.flatMap f).Perm (l.flatMap g) := by
  induction l with
  | nil => exact List.Perm.refl _
  | cons x xs ih =>
      simp only [List.flatMap_cons]
      exact (h x (by simp)).append (ih fun a ha => h a (by simp [ha]))

theorem elemStr_resolveCommands {c : Str} {pkgs : List Str} :
    elemStr c (ResolveCommands pkgs) =
      pkgs.any fun p => elemStr c ((lookupAssoc p PackageProvides).getD []) := by
  induction pkgs with
  | nil => rfl
  | cons p ps ih =>
      simp only [ResolveCommands, List.flatMap_cons, List.any_cons] at *
      rw [elemStr_append, ih]

theorem optionPerm_refl (o : Option (List (Str × Str))) : optionPerm o o := by
  cases o with
  | none => trivial
  | some l => exact List.Perm.refl l

theorem optionPerm_of_perm (l1 l2 : List (Str × Str)) {o1 o2 : Option (List (Str × Str))}
    (h1 : o1 = some l1) (h2 : o2 = some l2) (h : l1.Perm l2) : optionPerm o1 o2 := by
  subst h1
  subst h2
  exact h

/-! Claim theorems. -/

/-- C7: the dependency list never contains a builtin/keyword, a
script-local function or alias name, or a token containing `$` or `*`
unless it starts with `/`; and a script with no function declarations
whose every command-position word flattens to a builtin yields the empty
dependency set. -/
theorem extractDeps_exclusion_invariant :
    (∀ ast s, s ∈ extractDeps ast →
      isShellBuiltin s = false ∧ s ∉ funcNames ast ∧ s ∉ aliasNames ast ∧
      ((strContainsSub s (str "$") = true ∨ strContainsSub s (str "*") = true) →
        strStartsWith s (str "/") = true)) ∧
    (∀ ast, funcNames ast = [] →
      (∀ w ∈ commandWords ast, isShellBuiltin (wordToString w) = true) →
      extractDeps ast = []) := by
  constructor
  · intro ast s hs
    have hcol : s ∈ collectDeps (wrapperNames ast) (funcNames ast) (aliasNames ast) ast :=
      mem_sortedDedup.mp hs
    obtain ⟨h1, h2, h3, h4, h5⟩ := acceptName_true_iff.mp (collectDeps_accept hcol)
    refine ⟨h1, h2, h3, ?_⟩
    intro hc
    rcases h5 with h5 | ⟨hd, hstar⟩
    · exact h5
    · rcases hc with hc | hc
      · rw [hd] at hc
        exact absurd hc (by simp)
      · rw [hstar] at hc
        exact absurd hc (by simp)
  · intro ast hf hb
    unfold extractDeps
    rw [funcNames_nil_wrapperNames hf, collectDeps_builtinOnly hb]
    rfl

/-- C7 witness: the invariant applied to the `print_args` script at
`grep`, and the builtin-only consequence on a concrete script. -/
theorem extractDeps_exclusion_invariant_witness :
    isShellBuiltin (str "grep") = false ∧ extractDeps scriptBuiltinsOnly = [] :=
  ⟨(extractDeps_exclusion_invariant.1 scriptPrintArgs (str "grep") (by decide)).1,
   extractDeps_exclusion_invariant.2 scriptBuiltinsOnly (by decide) (by decide)⟩

/-- C8: the dependency list is strictly sorted in the bytewise
lexicographic order used by `sort.Strings` (hence duplicate-free), and
the extraction is deterministic: a second run on the same AST yields the
same list. -/
theorem extractDeps_sorted_nodup_idempotent :
    ∀ ast, ((extractDeps ast).Pairwise fun a b => strLt a b = true) ∧
      (extractDeps ast).Nodup ∧ extractDeps ast = extractDeps ast := by
  intro ast
  have hp : (extractDeps ast).Pairwise fun a b => strLt a b = true :=
    pairwise_sortedDedup _
  exact ⟨hp, hp.imp fun hab => strLt_ne hab, rfl⟩

/-- C10: word flattening drops parameter expansions entirely, so a
command word `$VAR/literal` flattens to the literal part alone (accepted
as an absolute-path dependency when it starts with `/`), while a word
that is a single parameter expansion flattens to the empty string and is
rejected. -/
theorem word_flattening_paramExp :
    ∀ v s : Str, strStartsWith s (str "/") = true → isShellBuiltin s = false →
      wordToString ⟨[.paramExp v, .lit s]⟩ = s ∧
      wordToString ⟨[.paramExp v]⟩ = [] ∧
      extractDeps (.call 1 [⟨[.paramExp v, .lit s]⟩]) = [s] ∧
      extractDeps (.call 1 [⟨[.paramExp v]⟩]) = [] := by
  intro v s hs hb
  have hw : wordToString ⟨[.paramExp v, .lit s]⟩ = s := by
    simp [wordToString, wordPartToString]
  have hsne : s ≠ [] := by
    cases s
    · simp [strStartsWith, str] at hs
    · simp
  have hacc : acceptName [] [] (wordToString ⟨[.paramExp v, .lit s]⟩) = true := by
    rw [hw]
    exact acceptName_true_iff.mpr ⟨hb, by simp, by simp, hsne, Or.inl hs⟩
  refine ⟨hw, rfl, ?_, rfl⟩
  show sortedDedup (callDeps [] [] [] [⟨[.paramExp v, .lit s]⟩]) = [s]
  have h2 : callDeps [] [] [] [⟨[.paramExp v, .lit s]⟩] = [s] := by
    simp only [callDeps]
    rw [if_pos hacc, hw]
  rw [h2]
  rfl

/-- C10 witness: the `$DIR/bin/tool` instance. -/
theorem word_flattening_paramExp_witness :
    wordToString ⟨[.paramExp (str "DIR"), .lit (str "/bin/tool")]⟩ = str "/bin/tool" ∧
    extractDeps (.call 1 [⟨[.paramExp (str "DIR"), .lit (str "/bin/tool")]⟩]) =
      [str "/bin/tool"] :=
  ⟨(word_flattening_paramExp (str "DIR") (str "/bin/tool") (by decide) (by decide)).1,
   (word_flattening_paramExp (str "DIR") (str "/bin/tool") (by decide) (by decide)).2.2.1⟩

/-- C2 counterexample: on `/sbin/sudo ls -l` the dependency list does not
include both `/sbin/sudo` and `ls` — the argument `ls` is not reported
(the repository's own tests pin this: only `/sbin/sudo` is expected). -/
theorem absolute_path_claim_false :
    ¬ (str "/sbin/sudo" ∈ extractDeps scriptSudo ∧ str "ls" ∈ extractDeps scriptSudo) := by
  decide

/-- C2 amended: an absolute-path command name in command position that is
not shadowed by a script function or alias is always reported; on
`/sbin/sudo ls -l` the result is exactly `["/sbin/sudo"]` — the argument
`ls` is not reported, because arguments are only analyzed for calls to
script-defined wrapper functions. -/
theorem absolute_path_reporting :
    (∀ ast w, w ∈ commandWords ast →
      strStartsWith (wordToString w) (str "/") = true →
      wordToString w ∉ funcNames ast → wordToString w ∉ aliasNames ast →
      wordToString w ∈ extractDeps ast) ∧
    extractDeps scriptSudo = [str "/sbin/sudo"] := by
  constructor
  · intro ast w hw habs hf ha
    have hsne : wordToString w ≠ [] := by
      intro hnil
      rw [hnil] at habs
      simp [strStartsWith, str] at habs
    have hacc : acceptName (funcNames ast) (aliasNames ast) (wordToString w) = true :=
      acceptName_true_iff.mpr
        ⟨startsWith_slash_not_builtin habs, hf, ha, hsne, Or.inl habs⟩
    exact mem_sortedDedup.mpr (collectDeps_of_commandWord hw hacc)
  · decide

/-- C2 amended witness: the general part applied to `/sbin/sudo ls -l`. -/
theorem absolute_path_reporting_witness :
    str "/sbin/sudo" ∈ extractDeps scriptSudo :=
  absolute_path_reporting.1 scriptSudo (litWord "/sbin/sudo")
    (by decide) (by decide) (by decide) (by decide)

/-- C6: `FindMissingCommands` returns exactly the required commands
absent from the union of the provides-table entries of the given
packages (unknown packages contributing nothing), as an order-preserving
sublist of the input; including the two concrete examples. -/
theorem findMissingCommands_spec :
    (∀ required packages : List Str,
      FindMissingCommands required packages =
        required.filter (fun c =>
          !(packages.any fun p => elemStr c ((lookupAssoc p PackageProvides).getD []))) ∧
      (FindMissingCommands required packages).Sublist required) ∧
    FindMissingCommands [str "grep", str "curl", str "jq"] [str "busybox"] =
      [str "curl", str "jq"] ∧
    FindMissingCommands [str "grep", str "curl", str "jq"] [str "busybox", str "curl"] =
      [str "jq"] := by
  refine ⟨fun required packages => ⟨?_, ?_⟩, by decide, by decide⟩
  · unfold FindMissingCommands
    apply List.filter_congr
    intro c hc
    rw [elemStr_resolveCommands]
  · exact List.filter_sublist required

/-- C6 witness: the filter characterization evaluated at the concrete
example-input lists. -/
theorem findMissingCommands_spec_witness :
    FindMissingCommands [str "grep", str "curl", str "jq"] [str "busybox"] =
      List.filter (fun c =>
        !([str "busybox"].any fun p =>
          elemStr c ((lookupAssoc p PackageProvides).getD [])))
        [str "grep", str "curl", str "jq"] :=
  (findMissingCommands_spec.1 [str "grep", str "curl", str "jq"] [str "busybox"]).1

/-- C8 witness: sortedness and dedup evaluated on the `vr` script. -/
theorem extractDeps_sorted_nodup_idempotent_witness :
    (extractDeps scriptVr).Nodup :=
  (extractDeps_sorted_nodup_idempotent scriptVr).2.1

/-- C1: wrapper-function resolution.  A function is a wrapper iff its
body contains, in command position, a word containing a parameter
expansion of `@` or `*` (quoted or unquoted); a call to a wrapper with a
second argument contributes that argument's flattened string through the
usual acceptance filter; and the two concrete scripts behave as
specified. -/
theorem wrapper_function_resolution :
    (∀ ast n, n ∈ wrapperNames ast ↔
      ∃ b, (n, b) ∈ funcDecls ast ∧ executesArguments b = true) ∧
    (∀ body, executesArguments body = true ↔
      ∃ w ∈ commandWords body, wordHasAllPositional w) ∧
    (∀ (wrappers funcs aliases : List Str) (w0 w1 : Word) (rest : List Word),
      elemStr (wordToString w0) wrappers = true →
      acceptName funcs aliases (wordToString w1) = true →
      wordToString w1 ∈ callDeps wrappers funcs aliases (w0 :: w1 :: rest)) ∧
    extractDeps scriptVr = [str "ls"] ∧
    extractDeps scriptPrintArgs = [str "grep"] := by
  refine ⟨?_, ?_, ?_, by decide, by decide⟩
  · intro ast n
    exact mem_wrapperNames_iff
  · intro body
    rw [executesArguments_eq_any, List.any_eq_true]
    constructor
    · rintro ⟨w, hw, hc⟩
      exact ⟨w, hw, containsAllPositionalParams_iff.mp hc⟩
    · rintro ⟨w, hw, hc⟩
      exact ⟨w, hw, containsAllPositionalParams_iff.mpr hc⟩
  · intro wrappers funcs aliases w0 w1 rest hwr hacc
    simp only [callDeps]
    rw [if_pos hwr, if_pos hacc]
    simp

/-- C1 witness: the wrapper-call rule applied to `vr ls /etc` with the
wrapper set computed from `scriptVr`. -/
theorem wrapper_function_resolution_witness :
    str "ls" ∈ callDeps [str "vr"] [str "vr"] []
      [litWord "vr", litWord "ls", litWord "/etc"] :=
  wrapper_function_resolution.2.2.1 [str "vr"] [str "vr"] []
    (litWord "vr") (litWord "ls") [litWord "/etc"] (by decide) (by decide)

/-- C3: the flag matcher agrees with the claim's three-case description
for all argument and flag strings, and on the two concrete examples. -/
theorem matchesFlag_spec_correct :
    (∀ arg flag : Str, matchesFlag arg flag = true ↔ matchesFlagSpec arg flag) ∧
    matchesFlag (str "-Dm755") (str "-D") = true ∧
    matchesFlag (str "-m755") (str "-D") = false := by
  refine ⟨?_, by decide, by decide⟩
  intro arg flag
  constructor
  · intro h
    unfold matchesFlag at h
    by_cases h1 : arg = flag
    · exact Or.inl h1
    · rw [if_neg h1] at h
      by_cases h2 : (strStartsWith flag (str "--") && strStartsWith arg (flag ++ str "=")) = true
      · rw [Bool.and_eq_true] at h2
        obtain ⟨h2a, h2b⟩ := h2
        obtain ⟨t1, ht1⟩ := strStartsWith_iff.mp h2a
        obtain ⟨t2, ht2⟩ := strStartsWith_iff.mp h2b
        refine Or.inr (Or.inl ⟨⟨t1, ht1⟩, ⟨t2, ?_⟩⟩)
        rw [ht2, List.append_assoc]
      · rw [if_neg h2] at h
        by_cases hf : flag.length = 2 ∧ flag.getD 0 ' ' = '-' ∧ flag.getD 1 ' ' ≠ '-'
        · rw [if_pos hf] at h
          obtain ⟨hlen, h0, hn1⟩ := hf
          rcases flag with _ | ⟨f0, _ | ⟨f1, _ | ⟨f2, fr⟩⟩⟩
          · simp at hlen
          · simp at hlen
          · have hf0 : f0 = '-' := h0
            subst hf0
            have hf1 : f1 ≠ '-' := hn1
            by_cases h3 : (strStartsWith arg (str "-") && !strStartsWith arg (str "--")) = true
            · rw [if_pos h3] at h
              rw [Bool.and_eq_true] at h3
              obtain ⟨h3a, h3b⟩ := h3
              obtain ⟨t, ht⟩ := strStartsWith_iff.mp h3a
              refine Or.inr (Or.inr ⟨f1, rfl, hf1, ⟨t, ht⟩, ?_, ?_⟩)
              · rintro ⟨t', ht'⟩
                have hsw : strStartsWith arg (str "--") = true :=
                  strStartsWith_iff.mpr ⟨t', ht'⟩
                rw [hsw] at h3b
                exact absurd h3b (by simp)
              · have hmem : f1 ∈ arg := strContainsSub_singleton.mp h
                rw [ht] at hmem ⊢
                rcases List.mem_cons.mp (show f1 ∈ '-' :: t from hmem) with heq | hmem'
                · exact absurd heq hf1
                · exact hmem'
            · rw [if_neg h3] at h
              exact absurd h (by simp)
          · simp at hlen
        · rw [if_neg hf] at h
          exact absurd h (by simp)
  · intro h
    unfold matchesFlag
    by_cases h1 : arg = flag
    · rw [if_pos h1]
    · rw [if_neg h1]
      rcases h with h | ⟨⟨t1, ht1⟩, t2, ht2⟩ | ⟨c, rfl, hc, ⟨t, ht⟩, hnl, hmem⟩
      · exact absurd h h1
      · have h2 : (strStartsWith flag (str "--") &&
            strStartsWith arg (flag ++ str "=")) = true := by
          rw [Bool.and_eq_true]
          refine ⟨strStartsWith_iff.mpr ⟨t1, ht1⟩, strStartsWith_iff.mpr ⟨t2, ?_⟩⟩
          rw [ht2, List.append_assoc]
        rw [if_pos h2]
      · by_cases h2 : (strStartsWith ['-', c] (str "--") &&
            strStartsWith arg (['-', c] ++ str "=")) = true
        · rw [if_pos h2]
        · rw [if_neg h2]
          have hcond : (['-', c] : Str).length = 2 ∧ (['-', c] : Str).getD 0 ' ' = '-' ∧
              (['-', c] : Str).getD 1 ' ' ≠ '-' := ⟨rfl, rfl, hc⟩
          rw [if_pos hcond]
          have h3a : strStartsWith arg (str "-") = true := strStartsWith_iff.mpr ⟨t, ht⟩
          have h3b : (!strStartsWith arg (str "--")) = true := by
            cases hsw : strStartsWith arg (str "--")
            · rfl
            · obtain ⟨t', ht'⟩ := strStartsWith_iff.mp hsw
              exact absurd ⟨t', ht'⟩ hnl
          rw [if_pos (by rw [Bool.and_eq_true]; exact ⟨h3a, h3b⟩)]
          apply strContainsSub_singleton.mpr
          show c ∈ arg
          rw [ht] at hmem ⊢
          exact List.mem_cons.mpr (Or.inr hmem)

/-- C3 witness: the equivalence applied at the concrete pair
`("-Dm755", "-D")`. -/
theorem matchesFlag_spec_correct_witness :
    matchesFlagSpec (str "-Dm755") (str "-D") :=
  (matchesFlag_spec_correct.1 (str "-Dm755") (str "-D")).mp (by decide)

/-- C4 counterexample: with `/bin/ls` a symlink to `/busybox/ls` (a
regular file whose base name is `ls`), the source classifies the provider
as `busybox` (the full target contains `"busybox"`), while the claim's
description — which tests only the target's base name — yields
`unknown`. -/
theorem resolveProvider_claim_false :
    DetectCommandProvider fsBusyboxDir (str "ls") [str "/bin"] ≠
      ResolveProviderClaimed fsBusyboxDir (str "ls") [str "/bin"] ∧
    (DetectCommandProvider fsBusyboxDir (str "ls") [str "/bin"]).provider = str "busybox" ∧
    (ResolveProviderClaimed fsBusyboxDir (str "ls") [str "/bin"]).provider = str "unknown" := by
  refine ⟨by decide, by decide, by decide⟩

/-- C4 amended: `DetectCommandProvider` equals the claim's description
once the symlink busybox test is amended from "the target's base name
equals or contains busybox" to "the target's base name equals `busybox`,
or the full target string contains `busybox` anywhere": first matching
directory wins (no aggregation), symlinks are classified by their
resolved target, regular files are `coreutils`, and a command found in
no directory is `unknown`. -/
theorem resolveProvider_amended_correct :
    ∀ (fs : FS) (cmd : Str) (dirs : List Str),
      DetectCommandProvider fs cmd dirs = ResolveProviderAmended fs cmd dirs := by
  intro fs cmd dirs
  induction dirs with
  | nil => rfl
  | cons dir rest ih =>
      cases he : fs.lookup (filepathJoin dir cmd) with
      | none =>
          have hpred : ¬ ((fs.lookup (filepathJoin dir cmd)).isSome = true) := by
            simp [he]
          have hfind :
              (dir :: rest).find? (fun d => (fs.lookup (filepathJoin d cmd)).isSome) =
                rest.find? (fun d => (fs.lookup (filepathJoin d cmd)).isSome) :=
            List.find?_cons_of_neg _ hpred
          calc DetectCommandProvider fs cmd (dir :: rest)
              = DetectCommandProvider fs cmd rest := by
                simp only [DetectCommandProvider, he]
            _ = ResolveProviderAmended fs cmd rest := ih
            _ = ResolveProviderAmended fs cmd (dir :: rest) := by
                unfold ResolveProviderAmended
                rw [hfind]
      | some e =>
          have hpred : (fs.lookup (filepathJoin dir cmd)).isSome = true := by
            simp [he]
          have hfind :
              (dir :: rest).find? (fun d => (fs.lookup (filepathJoin d cmd)).isSome) =
                some dir :=
            List.find?_cons_of_pos _ hpred
          calc DetectCommandProvider fs cmd (dir :: rest)
              = classifyEntry fs cmd dir (filepathJoin dir cmd) e := by
                simp only [DetectCommandProvider, he]
            _ = classifyEntryAmended fs cmd dir (filepathJoin dir cmd) e :=
                classifyEntry_eq_amended fs cmd dir (filepathJoin dir cmd) e
            _ = ResolveProviderAmended fs cmd (dir :: rest) := by
                unfold ResolveProviderAmended
                rw [hfind]
                show classifyEntryAmended fs cmd dir (filepathJoin dir cmd) e =
                  match fs.lookup (filepathJoin dir cmd) with
                  | some e => classifyEntryAmended fs cmd dir (filepathJoin dir cmd) e
                  | none => ⟨cmd, [], str "unknown"⟩
                rw [he]

/-- C4 amended witness: the equivalence evaluated on the concrete
busybox-directory filesystem. -/
theorem resolveProvider_amended_correct_witness :
    DetectCommandProvider fsBusyboxDir (str "ls") [str "/bin"] =
      ResolveProviderAmended fsBusyboxDir (str "ls") [str "/bin"] :=
  resolveProvider_amended_correct fsBusyboxDir (str "ls") [str "/bin"]

/-- C9 counterexample: enumerating `readlink`'s flag map in a different
(but equally admissible) order than the source-text order produces a
different findings list on `readlink -em x` — the two runs agree only up
to permutation, so the checker's output order is not a function of the
AST and label alone. -/
theorem checker_order_nondeterminism :
    readlinkFlagsRev.Perm ((lookupAssoc (str "readlink") gnuOnlyFlags).getD []) ∧
    checkASTWith gnuFlagsEnumAlt scriptReadlink ≠
      checkASTWith gnuFlagsEnum scriptReadlink ∧
    (checkASTWith gnuFlagsEnumAlt scriptReadlink).Perm
      (checkASTWith gnuFlagsEnum scriptReadlink) := by
  refine ⟨by decide, by decide, by decide⟩

/-- C9 amended: the checker is a pure function of the AST, the label and
the enumeration order of each command's flag map: for a fixed
enumeration two runs give identical lists, and enumerating the flag maps
in any other order permutes the findings list (same multiset of
findings). -/
theorem checker_perm_stable :
    (∀ ast label, CheckGNUCompatibilityAST ast label = checkASTWith gnuFlagsEnum ast) ∧
    (∀ (enum : Str → Option (List (Str × Str))) ast,
      checkASTWith enum ast = checkASTWith enum ast) ∧
    (∀ (enum1 enum2 : Str → Option (List (Str × Str))) ast,
      (∀ c, optionPerm (enum1 c) (enum2 c)) →
      (checkASTWith enum1 ast).Perm (checkASTWith enum2 ast)) := by
  refine ⟨fun ast label => rfl, fun enum ast => rfl, ?_⟩
  intro enum1 enum2 ast hperm
  induction ast with
  | call line args =>
      rcases args with _ | ⟨w0, rest⟩
      · exact List.Perm.refl _
      · simp only [checkASTWith, callIncompats]
        have h := hperm (callCmdName w0)
        cases he1 : enum1 (callCmdName w0) with
        | none =>
            cases he2 : enum2 (callCmdName w0) with
            | none => exact List.Perm.refl _
            | some l2 =>
                rw [he1, he2] at h
                exact absurd h (by simp [optionPerm])
        | some l1 =>
            cases he2 : enum2 (callCmdName w0) with
            | none =>
                rw [he1, he2] at h
                exact absurd h (by simp [optionPerm])
            | some l2 =>
                rw [he1, he2] at h
                exact flatMapPermCongr fun w hw =>
                  List.Perm.filterMap _ h
  | funcDecl n body ih => exact ih
  | seq a b iha ihb => exact iha.append ihb
  | skip => exact List.Perm.refl _

/-- The provider cache only ever holds correct entries: extending a
correct cache with a freshly resolved command keeps it correct. -/
theorem cacheOK_extend {fs : FS} {dirs : List Str} {cache : List (Str × ProviderInfo)}
    (hc : ∀ c p, lookupAssoc c cache = some p → p = DetectCommandProvider fs c dirs)
    (k : Str) :
    ∀ c p, lookupAssoc c (cache ++ [(k, DetectCommandProvider fs k dirs)]) = some p →
      p = DetectCommandProvider fs c dirs := by
  intro c p hcp
  rw [lookupAssoc_append] at hcp
  cases hcc : lookupAssoc c cache with
  | some q =>
      rw [hcc] at hcp
      simp only [Option.or] at hcp
      cases hcp
      exact hc _ _ hcc
  | none =>
      rw [hcc] at hcp
      simp only [Option.or] at hcp
      by_cases hck : c = k
      · subst hck
        simp only [lookupAssoc, if_pos rfl] at hcp
        cases hcp
        rfl
      · simp only [lookupAssoc, hck, if_false] at hcp
        cases hcp

/-- The filtering loop with a correct cache computes the provider-based
filter of its input. -/
theorem filterIncompatAux_filter (fs : FS) (dirs : List Str) :
    ∀ (l : List Incompat) (cache : List (Str × ProviderInfo)),
      (∀ c p, lookupAssoc c cache = some p → p = DetectCommandProvider fs c dirs) →
      (filterIncompatAux fs dirs l cache).1 =
        l.filter fun i =>
          (DetectCommandProvider fs i.command dirs).provider ≠ str "coreutils" := by
  intro l
  induction l with
  | nil =>
      intro cache hc
      rfl
  | cons inc rest ih =>
      intro cache hc
      rw [List.filter_cons]
      cases hl : lookupAssoc inc.command cache with
      | some p =>
          have hp : p = DetectCommandProvider fs inc.command dirs := hc _ _ hl
          simp only [filterIncompatAux, hl]
          rw [ih cache hc, hp]
          by_cases hdec : (DetectCommandProvider fs inc.command dirs).provider ≠ str "coreutils"
          · rw [if_pos hdec, if_pos (by simpa using hdec)]
          · rw [if_neg hdec, if_neg (by simpa using hdec)]
      | none =>
          simp only [filterIncompatAux, hl]
          rw [ih (cache ++ [(inc.command, DetectCommandProvider fs inc.command dirs)])
            (cacheOK_extend hc inc.command)]
          by_cases hdec : (DetectCommandProvider fs inc.command dirs).provider ≠ str "coreutils"
          · rw [if_pos hdec, if_pos (by simpa using hdec)]
          · rw [if_neg hdec, if_neg (by simpa using hdec)]

/-- The resolver-call log of the filtering loop records each command at
most once, and never a command already present in the cache. -/
theorem filterIncompatAux_log {fs : FS} {dirs : List Str} :
    ∀ (l : List Incompat) (cache : List (Str × ProviderInfo)),
      ((filterIncompatAux fs dirs l cache).2.2).Nodup ∧
      ∀ c ∈ (filterIncompatAux fs dirs l cache).2.2, lookupAssoc c cache = none := by
  intro l
  induction l with
  | nil =>
      intro cache
      exact ⟨List.nodup_nil, by intro c hc; simp [filterIncompatAux] at hc⟩
  | cons inc rest ih =>
      intro cache
      cases hl : lookupAssoc inc.command cache with
      | some p =>
          simp only [filterIncompatAux, hl]
          exact ih cache
      | none =>
          simp only [filterIncompatAux, hl]
          obtain ⟨hnodup, hnone⟩ :=
            ih (cache ++ [(inc.command, DetectCommandProvider fs inc.command dirs)])
          constructor
          · refine List.nodup_cons.mpr ⟨?_, hnodup⟩
            intro hmem
            have hcontr := hnone _ hmem
            rw [lookupAssoc_append, hl] at hcontr
            simp [Option.or, lookupAssoc] at hcontr
          · intro c hc
            rcases List.mem_cons.mp hc with rfl | hmem
            · exact hl
            · have h2 := hnone _ hmem
              rw [lookupAssoc_append] at h2
              cases hcc : lookupAssoc c cache with
              | none => rfl
              | some q =>
                  rw [hcc] at h2
                  simp [Option.or] at h2

/-- C5: provider filtering.  With an empty search path the input is
returned unchanged; otherwise exactly the incompatibilities whose
command's provider is not `coreutils` are retained (findings for
busybox-provided and unknown commands are kept), and the provider
resolver is invoked at most once per distinct command (the call log has
no duplicates). -/
theorem filterByProvider_spec :
    ∀ (fs : FS) (dirs : List Str) (l : List Incompat),
      (dirs = [] → FilterByProvider fs l dirs = l) ∧
      (dirs ≠ [] → FilterByProvider fs l dirs =
        l.filter fun i =>
          (DetectCommandProvider fs i.command dirs).provider ≠ str "coreutils") ∧
      ((filterIncompatAux fs dirs l []).2.2).Nodup := by
  intro fs dirs l
  refine ⟨?_, ?_, (filterIncompatAux_log l []).1⟩
  · intro h
    rw [FilterByProvider, if_pos h]
  · intro h
    rw [FilterByProvider, if_neg h]
    exact filterIncompatAux_filter fs dirs l []
      (by intro c p hcp; simp [lookupAssoc] at hcp)

/-- C5 witness: the filter characterization and the no-duplicate-
resolution property on the concrete mixed filesystem, where the
`realpath` finding (regular file, hence coreutils) is removed and the
`readlink` finding (busybox symlink) is kept. -/
theorem filterByProvider_spec_witness :
    FilterByProvider fsMixed incompatPair [str "/bin"] =
      incompatPair.filter (fun i =>
        (DetectCommandProvider fsMixed i.command [str "/bin"]).provider ≠
          str "coreutils") ∧
    ((filterIncompatAux fsMixed [str "/bin"] incompatPair []).2.2).Nodup :=
  ⟨(filterByProvider_spec fsMixed [str "/bin"] incompatPair).2.1 (by simp),
   (filterByProvider_spec fsMixed [str "/bin"] incompatPair).2.2⟩

/-- C9 amended witness: permutation stability applied to the
source-order enumeration and the readlink-reversed enumeration on
`readlink -em x`. -/
theorem checker_perm_stable_witness :
    (checkASTWith gnuFlagsEnum scriptReadlink).Perm
      (checkASTWith gnuFlagsEnumAlt scriptReadlink) :=
  checker_perm_stable.2.2 gnuFlagsEnum gnuFlagsEnumAlt scriptReadlink
    (fun c => by
      by_cases hc : c = str "readlink"
      · subst hc
        exact optionPerm_of_perm ((lookupAssoc (str "readlink") gnuOnlyFlags).getD [])
          readlinkFlagsRev (by decide) (by decide) (by decide)
      · simp only [gnuFlagsEnumAlt, hc, if_false]
        exact optionPerm_refl _)

end ShellDeps
